import Mathlib

/-!
Verification of the MyanmarEQ2025 ingestion pipeline.

This file gives a shallow embedding of the deduplicating persistence sink,
the retry wrapper, the filter chain, the record decoder helpers and the
lifecycle monitor loop of the repository (historical_scraper.py, scraper.py,
utils.py), and proves the stated properties about them.
-/

namespace MyanmarEQ

/-- Normalized post record: the dictionary built by
BlueskyHistoricalSearch._extract_post_data in historical_scraper.py, with
one field per dictionary key, in insertion order. -/
structure PostData where
  cid : String
  text : String
  translated_text : String
  created_at : String
  author : String
  translated : String
  uri : String
  has_images : Bool
  image_urls : List String
  reply_to : Option String
  web_url : Option String
  likes : Nat
  reposts : Nat
deriving DecidableEq, Repr

/-- The keys of the post_data dictionary in insertion order; this is the
header line written by _save_post_data on first save. -/
def postDataKeys : List String :=
  ["cid", "text", "translated_text", "created_at", "author", "translated",
   "uri", "has_images", "image_urls", "reply_to", "web_url", "likes",
   "reposts"]

/-- The persisted CSV output file: a header line plus the appended rows. -/
structure CsvFile where
  header : List String
  rows : List PostData
deriving DecidableEq, Repr

/-- The uri column of the file, as read back by pandas in _save_post_data. -/
def CsvFile.uris (f : CsvFile) : List String := f.rows.map PostData.uri

/-- The read-or-create phase of _save_post_data: when the output file exists
its uri column is read; otherwise the file is created holding only a header
line naming the post_data keys, and the existing uri list is empty. -/
def readUris (file : Option CsvFile) : CsvFile × List String :=
  match file with
  | some f => (f, f.uris)
  | none => ((⟨postDataKeys, []⟩ : CsvFile), [])

/-- The check-then-insert phase of _save_post_data: when the uri of the
record is among the existing uris, return false and leave the file
unchanged; otherwise append the row (utils.append_to_csv with mode a and no
header) and return true. -/
def checkAndAppend (pd : PostData) (existing_uris : List String)
    (f : CsvFile) : Bool × CsvFile :=
  if pd.uri ∈ existing_uris then (false, f)
  else (true, ⟨f.header, f.rows ++ [pd]⟩)

/-- BlueskyHistoricalSearch._save_post_data: read (or create) the output
file, then check-and-append. Returns the outcome flag and the new file
state. -/
def savePostData (pd : PostData) (file : Option CsvFile) : Bool × CsvFile :=
  let rc := readUris file
  checkAndAppend pd rc.2 rc.1

/-- Run _save_post_data over a sequence of records, threading the persisted
file state; since _save_post_data rereads the file on every call, a process
restart between any two records changes nothing in this model. -/
def processAll (records : List PostData) (file : Option CsvFile) :
    Option CsvFile :=
  records.foldl (fun st pd => some (savePostData pd st).2) file

/-- The uri column of an optional file (an absent file has no uris). -/
def fileUris (file : Option CsvFile) : List String :=
  match file with
  | some f => f.uris
  | none => []

theorem savePostData_uris (pd : PostData) (file : Option CsvFile) :
    fileUris (some (savePostData pd file).2) =
      if pd.uri ∈ fileUris file then fileUris file
      else fileUris file ++ [pd.uri] := by
  cases file with
  | none =>
      show fileUris (some (checkAndAppend pd [] ⟨postDataKeys, []⟩).2) = _
      rw [checkAndAppend, if_neg (List.not_mem_nil pd.uri),
        if_neg (show pd.uri ∉ fileUris none from List.not_mem_nil pd.uri)]
      simp [fileUris, CsvFile.uris]
  | some f =>
      show fileUris (some (checkAndAppend pd f.uris f).2) = _
      rw [checkAndAppend]
      by_cases h : pd.uri ∈ f.uris
      · rw [if_pos h, if_pos (show pd.uri ∈ fileUris (some f) from h)]
      · rw [if_neg h, if_neg (show pd.uri ∉ fileUris (some f) from h)]
        simp [fileUris, CsvFile.uris]

theorem savePostData_nodup (pd : PostData) (file : Option CsvFile)
    (h : (fileUris file).Nodup) :
    (fileUris (some (savePostData pd file).2)).Nodup := by
  rw [savePostData_uris]
  by_cases hm : pd.uri ∈ fileUris file
  · simpa [hm] using h
  · simp only [hm, if_false]
    simpa [List.nodup_append] using ⟨h, hm⟩

theorem savePostData_mem_uris (pd : PostData) (file : Option CsvFile)
    (u : String) :
    u ∈ fileUris (some (savePostData pd file).2) ↔
      u ∈ fileUris file ∨ u = pd.uri := by
  rw [savePostData_uris]
  by_cases hm : pd.uri ∈ fileUris file
  · simp only [hm, if_true]
    constructor
    · exact Or.inl
    · rintro (h | rfl)
      · exact h
      · exact hm
  · simp [hm]

theorem processAll_cons (pd : PostData) (rest : List PostData)
    (file : Option CsvFile) :
    processAll (pd :: rest) file =
      processAll rest (some (savePostData pd file).2) := rfl

theorem processAll_invariant (records : List PostData) :
    ∀ file : Option CsvFile, (fileUris file).Nodup →
      (fileUris (processAll records file)).Nodup ∧
      ∀ u, u ∈ fileUris (processAll records file) ↔
        u ∈ fileUris file ∨ u ∈ records.map PostData.uri := by
  induction records with
  | nil =>
      intro file h
      exact ⟨h, fun u => by simp [processAll]⟩
  | cons pd rest ih =>
      intro file h
      rw [processAll_cons]
      obtain ⟨hn, hm⟩ :=
        ih (some (savePostData pd file).2) (savePostData_nodup pd file h)
      refine ⟨hn, fun u => ?_⟩
      rw [hm u, savePostData_mem_uris]
      constructor
      · rintro ((h1 | rfl) | h2)
        · exact Or.inl h1
        · exact Or.inr (by simp)
        · exact Or.inr (by simp [h2])
      · rintro (h1 | h2)
        · exact Or.inl (Or.inl h1)
        · rcases List.mem_map.mp h2 with ⟨q, hq, hqu⟩
          rcases List.mem_cons.mp hq with rfl | hq2
          · exact Or.inl (Or.inr hqu.symm)
          · exact Or.inr (List.mem_map.mpr ⟨q, hq2, hqu⟩)

theorem savePostData_of_mem (pd : PostData) (f : CsvFile)
    (h : pd.uri ∈ f.uris) : savePostData pd (some f) = (false, f) := by
  show checkAndAppend pd f.uris f = (false, f)
  rw [checkAndAppend, if_pos h]

theorem savePostData_of_not_mem (pd : PostData) (f : CsvFile)
    (h : pd.uri ∉ f.uris) :
    savePostData pd (some f) = (true, ⟨f.header, f.rows ++ [pd]⟩) := by
  show checkAndAppend pd f.uris f = _
  rw [checkAndAppend, if_neg h]

/-- C1: the dedup save returns false and leaves the file unchanged when the
uri of the record already appears in the uri column, and otherwise appends
exactly one row and returns true; processing any sequence of records from an
absent file yields exactly one persisted row per unique uri, and splitting
the sequence at a restart point (the file state being reloaded from the
persisted output) changes nothing. -/
theorem save_post_data_dedup (pd : PostData) (f : CsvFile)
    (records l1 l2 : List PostData) (file : Option CsvFile) (u : String) :
    (pd.uri ∈ f.uris → savePostData pd (some f) = (false, f)) ∧
    (pd.uri ∉ fileUris file →
      (savePostData pd file).1 = true ∧
      (savePostData pd file).2.rows = (readUris file).1.rows ++ [pd]) ∧
    (u ∈ records.map PostData.uri →
      (fileUris (processAll records none)).count u = 1) ∧
    processAll (l1 ++ l2) file = processAll l2 (processAll l1 file) := by
  refine ⟨?_, ?_, ?_, ?_⟩
  · intro h
    simp [savePostData, readUris, checkAndAppend, h]
  · intro h
    cases file with
    | none => simp [savePostData, readUris, checkAndAppend]
    | some g =>
        have h2 : pd.uri ∉ g.uris := by simpa [fileUris] using h
        simp [savePostData, readUris, checkAndAppend, h2]
  · intro h
    obtain ⟨hn, hm⟩ := processAll_invariant records none (by simp [fileUris])
    refine List.count_eq_one_of_mem hn ?_
    rw [hm u]
    exact Or.inr h
  · simp [processAll, List.foldl_append]

/-- Concrete records used by the witnesses. -/
def samplePost : PostData :=
  { cid := "c1", text := "hello", translated_text := "hello",
    created_at := "2025-03-28T00:00:00Z", author := "alice.bsky.social",
    translated := "no", uri := "at://did:plc:a/app.bsky.feed.post/1",
    has_images := true,
    image_urls := ["https://cdn.example/img1@jpeg"], reply_to := none,
    web_url := some "https://bsky.app/profile/alice.bsky.social/post/1",
    likes := 3, reposts := 1 }

/-- A second concrete record with a distinct uri. -/
def samplePost2 : PostData :=
  { samplePost with
    uri := "at://did:plc:b/app.bsky.feed.post/2",
    author := "bob.bsky.social" }

theorem save_post_data_dedup_witness :
    samplePost.uri ∈
        ([samplePost, samplePost2, samplePost].map PostData.uri) ∧
      (fileUris
          (processAll [samplePost, samplePost2, samplePost] none)).count
        samplePost.uri = 1 :=
  ⟨by decide,
    (save_post_data_dedup samplePost ⟨postDataKeys, [samplePost]⟩
      [samplePost, samplePost2, samplePost] [] [] none
      samplePost.uri).2.2.1 (by decide)⟩

/-- C5: the persistence sink is append-only. When the file does not exist,
the first save creates it with a header line naming the record fields and
one row; when it exists, a save keeps the header and the existing rows as a
prefix of the new rows (it either leaves the file unchanged or appends one
row at the end, never rewriting a prior row or the header). -/
theorem save_post_data_append_only (pd : PostData) (f : CsvFile) :
    (savePostData pd none).2 = ⟨postDataKeys, [pd]⟩ ∧
    (savePostData pd (some f)).2.header = f.header ∧
    f.rows <+: (savePostData pd (some f)).2.rows := by
  refine ⟨?_, ?_, ?_⟩
  · show (checkAndAppend pd [] ⟨postDataKeys, []⟩).2 = _
    rw [checkAndAppend, if_neg (List.not_mem_nil pd.uri)]
    rfl
  · by_cases h : pd.uri ∈ f.uris
    · rw [savePostData_of_mem pd f h]
    · rw [savePostData_of_not_mem pd f h]
  · by_cases h : pd.uri ∈ f.uris
    · rw [savePostData_of_mem pd f h]
    · rw [savePostData_of_not_mem pd f h]
      exact ⟨[pd], rfl⟩

/-- Two workers racing _save_post_data on the same record, interleaved so
that both execute the read phase before either executes the
check-then-insert phase; the code takes no lock between the two phases, so
this interleaving is possible under concurrent callers. -/
def racyCheckAndMark (pd : PostData) (file : Option CsvFile) :
    (Bool × Bool) × CsvFile :=
  let r1 := readUris file
  let r2 := readUris (some r1.1)
  let w1 := checkAndAppend pd r1.2 r2.1
  let w2 := checkAndAppend pd r2.2 w1.2
  ((w1.1, w2.1), w2.2)

/-- Outcomes of running _save_post_data serially over a list of records
(each call completes before the next one starts). -/
def serialOutcomes (records : List PostData) (file : Option CsvFile) :
    List Bool × Option CsvFile :=
  match records with
  | [] => ([], file)
  | pd :: rest =>
      let r := savePostData pd file
      let s := serialOutcomes rest (some r.2)
      (r.1 :: s.1, s.2)

theorem serialOutcomes_all_false (records : List PostData) (u : String) :
    ∀ file : Option CsvFile, (∀ pd ∈ records, pd.uri = u) →
      u ∈ fileUris file →
      (serialOutcomes records file).1 =
        List.replicate records.length false := by
  induction records with
  | nil => intro file _ _; rfl
  | cons pd rest ih =>
      intro file h1 h2
      cases file with
      | none => exact absurd h2 (List.not_mem_nil u)
      | some f =>
          have hu : pd.uri = u := h1 pd (List.mem_cons_self pd rest)
          have hm : pd.uri ∈ f.uris := by rw [hu]; exact h2
          show ((savePostData pd (some f)).1 ::
              (serialOutcomes rest (some (savePostData pd (some f)).2)).1,
              _).1 = _
          rw [savePostData_of_mem pd f hm]
          have := ih (some f) (fun q hq => h1 q (List.mem_cons_of_mem pd hq))
            h2
          simp [this, List.replicate_succ]

/-- C2 counterexample: the check-then-insert step of _save_post_data is not
indivisible. With the output file absent, two workers racing on the same
record can both read before either writes; then both observe the newly
marked outcome (true) and the record is persisted twice. -/
theorem check_and_mark_not_atomic :
    (racyCheckAndMark samplePost none).1 = (true, true) ∧
    (((racyCheckAndMark samplePost none).2.rows.map PostData.uri).count
      samplePost.uri) = 2 := by
  constructor
  · rfl
  · decide

/-- C2 amended: _save_post_data does not make check-then-insert indivisible
(two interleaved workers can both observe newly marked, as the
counterexample shows); when the competing check-and-mark calls for the same
uri execute serially — as they do in the single-threaded historical scraper
— exactly one call, the first, observes newly marked and every later call
observes already present. -/
theorem check_and_mark_serialized (records : List PostData) (u : String)
    (file : Option CsvFile) (pd : PostData) (rest : List PostData)
    (h0 : records = pd :: rest) (h1 : ∀ q ∈ records, q.uri = u)
    (h2 : u ∉ fileUris file) :
    (serialOutcomes records file).1 =
      true :: List.replicate (records.length - 1) false := by
  subst h0
  have hu : pd.uri = u := h1 pd (List.mem_cons_self pd rest)
  have hsave : (savePostData pd file).1 = true := by
    cases file with
    | none =>
        show (checkAndAppend pd [] ⟨postDataKeys, []⟩).1 = true
        rw [checkAndAppend, if_neg (List.not_mem_nil pd.uri)]
    | some f =>
        have hm : pd.uri ∉ f.uris := by rw [hu]; exact h2
        rw [savePostData_of_not_mem pd f hm]
  have hmem : u ∈ fileUris (some (savePostData pd file).2) := by
    rw [savePostData_mem_uris]
    exact Or.inr hu.symm
  show ((savePostData pd file).1 ::
      (serialOutcomes rest (some (savePostData pd file).2)).1, _).1 = _
  rw [hsave, serialOutcomes_all_false rest u
    (some (savePostData pd file).2)
    (fun q hq => h1 q (List.mem_cons_of_mem pd hq)) hmem]
  simp

theorem check_and_mark_serialized_witness :
    ([samplePost, samplePost] = samplePost :: [samplePost] ∧
      (∀ q ∈ [samplePost, samplePost], q.uri = samplePost.uri) ∧
      samplePost.uri ∉ fileUris none) ∧
    (serialOutcomes [samplePost, samplePost] none).1 =
      true :: List.replicate 1 false :=
  ⟨⟨rfl, by decide, by decide⟩,
    check_and_mark_serialized [samplePost, samplePost] samplePost.uri none
      samplePost [samplePost] rfl (by decide) (by decide)⟩

/-- The retry loop of _make_request_with_backoff. The loop runs while
retries is below max_retries, so the fuel argument counts the attempts
still allowed; retries is the number of attempts already failed. The
attempt function models one call of func: some result on success, none when
the call raises. Returns the result (none when every attempt failed), the
number of attempts performed, and the sleeps performed, in seconds, in
order: after the attempt made at retries = r fails, the code increments
retries and sleeps backoff_time * 2 ^ (retries - 1) = (1 / 2) * 2 ^ r. -/
def backoffLoop {α : Type} (attempt : Nat → Option α) (retries : Nat) :
    Nat → Option α × Nat × List ℚ
  | 0 => (none, 0, [])
  | fuel + 1 =>
      match attempt retries with
      | some v => (some v, 1, [])
      | none =>
          let r := backoffLoop attempt (retries + 1) fuel
          (r.1, r.2.1 + 1, ((1 : ℚ) / 2) * 2 ^ retries :: r.2.2)

/-- BlueskyHistoricalSearch._make_request_with_backoff: start with zero
failed attempts and max_retries attempts allowed. -/
def makeRequestWithBackoff {α : Type} (attempt : Nat → Option α)
    (max_retries : Nat) : Option α × Nat × List ℚ :=
  backoffLoop attempt 0 max_retries

theorem backoffLoop_all_fail {α : Type} (attempt : Nat → Option α) :
    ∀ fuel retries, (∀ i, i < fuel → attempt (retries + i) = none) →
      backoffLoop attempt retries fuel =
        (none, fuel, (List.range fuel).map
          fun i => ((1 : ℚ) / 2) * 2 ^ (retries + i)) := by
  intro fuel
  induction fuel with
  | zero => intro retries _; rfl
  | succ f ih =>
      intro retries h
      have h0 : attempt retries = none := by
        have := h 0 (Nat.succ_pos f)
        simpa using this
      have hrec := ih (retries + 1) (fun i hi => by
        have heq : retries + 1 + i = retries + (i + 1) := by omega
        rw [heq]
        exact h (i + 1) (by omega))
      show (backoffLoop attempt retries (f + 1)) = _
      rw [backoffLoop, h0]
      rw [hrec]
      refine congrArg (fun l => ((none : Option α), f + 1, l)) ?_
      rw [List.range_succ_eq_map, List.map_cons, List.map_map]
      refine congrArg₂ List.cons (by rw [Nat.add_zero]) ?_
      refine List.map_congr_left (fun i _ => ?_)
      simp only [Function.comp]
      have heq : retries + 1 + i = retries + (i + 1) := by omega
      rw [heq]

theorem backoffLoop_success {α : Type} (attempt : Nat → Option α) (v : α) :
    ∀ j fuel retries, j < fuel →
      (∀ i, i < j → attempt (retries + i) = none) →
      attempt (retries + j) = some v →
      backoffLoop attempt retries fuel =
        (some v, j + 1, (List.range j).map
          fun i => ((1 : ℚ) / 2) * 2 ^ (retries + i)) := by
  intro j
  induction j with
  | zero =>
      intro fuel retries hlt _ hj
      cases fuel with
      | zero => omega
      | succ f =>
          rw [Nat.add_zero] at hj
          show (backoffLoop attempt retries (f + 1)) = _
          rw [backoffLoop, hj]
          rfl
  | succ k ih =>
      intro fuel retries hlt h hj
      cases fuel with
      | zero => omega
      | succ f =>
          have h0 : attempt retries = none := by
            have := h 0 (Nat.succ_pos k)
            simpa using this
          have hrec := ih f (retries + 1) (by omega)
            (fun i hi => by
              have heq : retries + 1 + i = retries + (i + 1) := by omega
              rw [heq]
              exact h (i + 1) (by omega))
            (by
              have heq : retries + 1 + k = retries + (k + 1) := by omega
              rw [heq]
              exact hj)
          show (backoffLoop attempt retries (f + 1)) = _
          rw [backoffLoop, h0]
          rw [hrec]
          refine congrArg (fun l => (some v, k + 1 + 1, l)) ?_
          rw [List.range_succ_eq_map, List.map_cons, List.map_map]
          refine congrArg₂ List.cons (by rw [Nat.add_zero]) ?_
          refine List.map_congr_left (fun i _ => ?_)
          simp only [Function.comp]
          have heq : retries + 1 + i = retries + (i + 1) := by omega
          rw [heq]

/-- C4: when every attempt fails, _make_request_with_backoff performs
exactly max_retries attempts, sleeping (1 / 2) * 2 ^ (k - 1) seconds after
the k-th failed attempt (index k - 1 of the sleep list), and returns none;
when the attempt at zero-based index j succeeds after j failures, its
result is returned at once, j + 1 attempts have been performed, and only
the j sleeps of the preceding failures occurred. -/
theorem make_request_with_backoff_spec {α : Type}
    (attempt : Nat → Option α) (m j : Nat) (v : α) :
    ((∀ k, k < m → attempt k = none) →
      makeRequestWithBackoff attempt m =
        (none, m, (List.range m).map
          fun k => ((1 : ℚ) / 2) * 2 ^ k)) ∧
    (j < m → (∀ i, i < j → attempt i = none) → attempt j = some v →
      makeRequestWithBackoff attempt m =
        (some v, j + 1, (List.range j).map
          fun k => ((1 : ℚ) / 2) * 2 ^ k)) := by
  constructor
  · intro h
    have := backoffLoop_all_fail attempt m 0 (fun i hi => by
      simpa using h i hi)
    simpa [makeRequestWithBackoff] using this
  · intro hlt h hj
    have := backoffLoop_success attempt v j m 0 hlt
      (fun i hi => by simpa using h i hi) (by simpa using hj)
    simpa [makeRequestWithBackoff] using this

theorem make_request_with_backoff_witness :
    (∀ k, k < 3 → (fun _ : Nat => (none : Option Nat)) k = none) ∧
    makeRequestWithBackoff (fun _ : Nat => (none : Option Nat)) 3 =
      (none, 3, [1 / 2, 1, 2]) := by
  refine ⟨fun k _ => rfl, ?_⟩
  have := (make_request_with_backoff_spec
    (fun _ : Nat => (none : Option Nat)) 3 0 0).1 (fun k _ => rfl)
  rw [this]
  norm_num [List.range_succ]

/-- Python truthiness of an optional string value: None and the empty
string are falsy, every other string is truthy. -/
def pyTruthy (o : Option String) : Bool :=
  match o with
  | none => false
  | some s => !s.isEmpty

theorem savePostData_fst_fresh (pd : PostData) (file : Option CsvFile)
    (h : pd.uri ∉ fileUris file) : (savePostData pd file).1 = true := by
  cases file with
  | none =>
      show (checkAndAppend pd [] ⟨postDataKeys, []⟩).1 = true
      rw [checkAndAppend, if_neg (List.not_mem_nil pd.uri)]
  | some f => rw [savePostData_of_not_mem pd f h]

/-- The filter-and-persist step of search_posts for one decoded nonempty
record: the OnlyWithImages filter, then the ExcludeReplies filter, then
_save_post_data. Returns the file state afterwards and the save outcome
(false when a filter rejected the record or the save was a duplicate). -/
def filterAndSave (only_images include_replies : Bool) (pd : PostData)
    (file : Option CsvFile) : Option CsvFile × Bool :=
  if only_images && !pd.has_images then (file, false)
  else if !include_replies && pyTruthy pd.reply_to then (file, false)
  else
    let r := savePostData pd file
    (some r.2, r.1)

/-- The accept decision of the two filters in source order: OnlyWithImages
first, ExcludeReplies second. -/
def filterAccept (only_images include_replies : Bool)
    (pd : PostData) : Bool :=
  !(only_images && !pd.has_images) &&
    !(!include_replies && pyTruthy pd.reply_to)

/-- The accept decision with the two filters evaluated in the opposite
order. -/
def filterAcceptSwapped (only_images include_replies : Bool)
    (pd : PostData) : Bool :=
  !(!include_replies && pyTruthy pd.reply_to) &&
    !(only_images && !pd.has_images)

/-- C3: with OnlyWithImages enabled and replies excluded, a record whose
uri is not yet persisted (and whose reply_to, when present, is a nonempty
uri) is persisted exactly when it has images and is not a reply; a record
failing either condition leaves the file untouched; and evaluating the two
conjunctive filters in the opposite order never changes the accept or
reject decision. -/
theorem filter_conjunction (pd : PostData) (file : Option CsvFile)
    (hfresh : pd.uri ∉ fileUris file)
    (hwf : ∀ s, pd.reply_to = some s → s ≠ "") :
    ((filterAndSave true false pd file).2 = true ↔
      (pd.has_images = true ∧ pd.reply_to = none)) ∧
    (¬(pd.has_images = true ∧ pd.reply_to = none) →
      filterAndSave true false pd file = (file, false)) ∧
    (∀ oi ir : Bool, ∀ q : PostData,
      filterAccept oi ir q = filterAcceptSwapped oi ir q) := by
  have hemp : ∀ s, pd.reply_to = some s → s.isEmpty = false := by
    intro s hrep
    have hs : s ≠ "" := hwf s hrep
    cases hempty : s.isEmpty with
    | false => rfl
    | true => exact absurd ((String.isEmpty_iff s).mp hempty) hs
  refine ⟨?_, ?_, ?_⟩
  · cases him : pd.has_images with
    | false => simp [filterAndSave, him]
    | true =>
        cases hrep : pd.reply_to with
        | some s => simp [filterAndSave, him, hrep, pyTruthy, hemp s hrep]
        | none =>
            simp [filterAndSave, him, hrep, pyTruthy,
              savePostData_fst_fresh pd file hfresh]
  · intro hno
    rcases not_and_or.mp hno with him | hrep
    · have him2 : pd.has_images = false := by
        cases h2 : pd.has_images with
        | false => rfl
        | true => exact absurd h2 him
      simp [filterAndSave, him2]
    · cases hr : pd.reply_to with
      | none => exact absurd hr hrep
      | some s =>
          cases him : pd.has_images with
          | false => simp [filterAndSave, him]
          | true => simp [filterAndSave, him, hr, pyTruthy, hemp s hr]
  · intro oi ir q
    rw [filterAccept, filterAcceptSwapped, Bool.and_comm]

theorem filter_conjunction_witness :
    samplePost.uri ∉ fileUris none ∧
    ((filterAndSave true false samplePost none).2 = true ↔
      (samplePost.has_images = true ∧ samplePost.reply_to = none)) :=
  ⟨by decide, (filter_conjunction samplePost none (by decide)
    (fun _ hs => Option.noConfusion hs)).1⟩

/-- One image inside an image embed; fullsize is the full resolution
download url. -/
structure ImageInfo where
  fullsize : String
  thumb : String
deriving DecidableEq, Repr

/-- The embed object attached to a post returned by the historical search
API; images is the value of the images attribute when that attribute is
present in the object dictionary. -/
structure EmbedObj where
  images : Option (List ImageInfo)
deriving DecidableEq, Repr

/-- The embed dictionary of a decoded firehose record (scraper.py): the
type tag value, and whether a thumb key is present. -/
structure EmbedDict where
  type : Option String
  hasThumb : Bool
deriving DecidableEq, Repr

/-- _check_for_images in scraper.py: the record embed (an absent embed
behaves as the empty dictionary, whose type lookup yields None) is an
image embed, or an external embed holding a thumb key. -/
def checkForImages (embed : Option EmbedDict) : Bool :=
  match embed with
  | none => false
  | some e =>
      (e.type == some "app.bsky.embed.images") ||
        ((e.type == some "app.bsky.embed.external") && e.hasThumb)

/-- _get_image_data in historical_scraper.py: when the post has a truthy
embed, take element 0 of the images attribute and append its fullsize url.
A missing images attribute (the dictionary get yields None, then the index
raises TypeError) or an empty images list (IndexError) raises, modeled as
error; an absent embed yields the empty url list. -/
def getImageData (embed : Option EmbedObj) : Except Unit (List String) :=
  match embed with
  | none => .ok []
  | some e =>
      match e.images with
      | none => .error ()
      | some [] => .error ()
      | some (i :: _) => .ok [i.fullsize]

/-- C7: a decoded record is marked has_images true exactly when its embed
is an image embed or an external embed carrying a thumbnail; and for a post
whose embed carries a nonempty images list, the extracted url sequence is
exactly one element, the fullsize url of the first image, however many
images the post embeds. -/
theorem image_detection_and_extraction (embed : Option EmbedDict)
    (e : EmbedObj) (i : ImageInfo) (rest : List ImageInfo)
    (h : e.images = some (i :: rest)) :
    (checkForImages embed = true ↔
      (∃ d, embed = some d ∧
        (d.type = some "app.bsky.embed.images" ∨
          (d.type = some "app.bsky.embed.external" ∧
            d.hasThumb = true)))) ∧
    getImageData (some e) = .ok [i.fullsize] ∧
    (∀ urls, getImageData (some e) = .ok urls → urls.length = 1) := by
  have hget : getImageData (some e) = .ok [i.fullsize] := by
    rw [getImageData, h]
  refine ⟨?_, hget, ?_⟩
  · cases embed with
    | none => simp [checkForImages]
    | some d =>
        simp only [checkForImages, Bool.or_eq_true, Bool.and_eq_true,
          beq_iff_eq]
        constructor
        · intro hd
          exact ⟨d, rfl, hd⟩
        · rintro ⟨d2, hd2, hp⟩
          cases hd2
          exact hp
  · intro urls hu
    rw [hget] at hu
    cases hu
    rfl

theorem image_detection_and_extraction_witness :
    ((⟨some [⟨"https://cdn.example/a1", "t1"⟩,
        ⟨"https://cdn.example/a2", "t2"⟩]⟩ : EmbedObj).images =
      some (⟨"https://cdn.example/a1", "t1"⟩ ::
        [⟨"https://cdn.example/a2", "t2"⟩])) ∧
    getImageData (some ⟨some [⟨"https://cdn.example/a1", "t1"⟩,
        ⟨"https://cdn.example/a2", "t2"⟩]⟩) =
      .ok ["https://cdn.example/a1"] :=
  ⟨rfl, (image_detection_and_extraction
    (some ⟨some "app.bsky.embed.images", false⟩)
    ⟨some [⟨"https://cdn.example/a1", "t1"⟩,
      ⟨"https://cdn.example/a2", "t2"⟩]⟩
    ⟨"https://cdn.example/a1", "t1"⟩
    [⟨"https://cdn.example/a2", "t2"⟩] rfl).2.1⟩

/-- Python style split of a character list on a separator, scanning left to
right and splitting at each non-overlapping occurrence; the fuel argument
(at least the length of the input) makes the recursion structural. -/
def pySplitAux (sep : List Char) : Nat → List Char → List (List Char)
  | 0, s => [s]
  | fuel + 1, s =>
      match s with
      | [] => [[]]
      | c :: cs =>
          if sep.isPrefixOf (c :: cs) then
            [] :: pySplitAux sep fuel (List.drop sep.length (c :: cs))
          else
            match pySplitAux sep fuel cs with
            | [] => [[c]]
            | h :: t => (c :: h) :: t

/-- Python str.split with a nonempty separator. -/
def pySplit (sep s : String) : List String :=
  (pySplitAux sep.data s.data.length s.data).map fun l => String.mk l

/-- The resolution result of the identity lookup: the also_known_as alias
list of the resolved DID document. -/
structure ResolvedInfo where
  also_known_as : List String
deriving Repr

/-- _resolve_author_handle in scraper.py. The lookup argument models
resolver.did.resolve: error when the call raises. The whole body sits in a
try block, so a raising lookup — and equally the index error raised when
the first alias does not split into two parts on the at marker — falls back
to returning the repo identifier itself. -/
def resolveAuthorHandle (repo : String)
    (lookup : Except Unit ResolvedInfo) : String :=
  match lookup with
  | .error _ => repo
  | .ok info =>
      match info.also_known_as with
      | [] => repo
      | a :: _ =>
          match (pySplit "at://" a).get? 1 with
          | some h => h
          | none => repo

/-- C8: author resolution never fails a record. A raising lookup, an empty
alias list, or a first alias in which the at marker does not occur all fall
back to the opaque repo identifier verbatim; a first alias splitting as an
at uri resolves to the handle after the marker. The function is total by
construction, so no exception escapes its boundary. -/
theorem resolve_author_handle_spec (repo h a : String)
    (info : ResolvedInfo) (rest : List String)
    (hsplit : pySplit "at://" a = ["", h]) :
    resolveAuthorHandle repo (.error ()) = repo ∧
    (info.also_known_as = [] →
      resolveAuthorHandle repo (.ok info) = repo) ∧
    resolveAuthorHandle repo (.ok ⟨a :: rest⟩) = h ∧
    (∀ b bs, (pySplit "at://" b).get? 1 = none →
      resolveAuthorHandle repo (.ok ⟨b :: bs⟩) = repo) := by
  refine ⟨rfl, ?_, ?_, ?_⟩
  · intro he
    cases info with
    | mk aka =>
        cases he
        rfl
  · have hstep : resolveAuthorHandle repo (.ok ⟨a :: rest⟩) =
        match (pySplit "at://" a).get? 1 with
        | some h2 => h2
        | none => repo := rfl
    rw [hstep, hsplit]
    rfl
  · intro b bs hb
    have hstep : resolveAuthorHandle repo (.ok ⟨b :: bs⟩) =
        match (pySplit "at://" b).get? 1 with
        | some h2 => h2
        | none => repo := rfl
    rw [hstep, hb]

theorem resolve_author_handle_witness :
    pySplit "at://" "at://alice.bsky.social" =
      ["", "alice.bsky.social"] ∧
    resolveAuthorHandle "did:plc:xyz"
      (.ok ⟨["at://alice.bsky.social"]⟩) = "alice.bsky.social" :=
  ⟨rfl, (resolve_author_handle_spec "did:plc:xyz" "alice.bsky.social"
    "at://alice.bsky.social" ⟨[]⟩ [] rfl).2.2.1⟩

/-- The flags read by one iteration of the monitor loop inside
FirehoseScraper.start_collection: the stop event, the duration limit
(configured and exceeded), the post-count limit (configured and reached)
and whether the client process is alive. -/
structure MonitorObs where
  stopSet : Bool
  durationHit : Bool
  postLimitHit : Bool
  clientAlive : Bool
deriving DecidableEq, Repr

/-- The decision of one iteration of the inner monitor loop: keepLooping
models sleeping one second and iterating again; stopAndBreak models a call
of _stop_collection — which sets the stop event and tears down client and
workers — followed by break; breakOnly models break with the stop event
already set. -/
inductive MonitorStep
  | keepLooping
  | stopAndBreak
  | breakOnly
deriving DecidableEq, Repr

/-- One iteration of the inner monitor loop of start_collection, in source
order: the stop-event check, the duration check, the post-limit check, the
client-liveness check, otherwise sleep and continue. -/
def monitorStep (o : MonitorObs) : MonitorStep :=
  if o.stopSet then .breakOnly
  else if o.durationHit then .stopAndBreak
  else if o.postLimitHit then .stopAndBreak
  else if !o.clientAlive then
    (if !o.stopSet then .stopAndBreak else .breakOnly)
  else .keepLooping

/-- What the outer retry loop of start_collection does right after the
inner loop breaks: it reads the stop event once more and breaks out of the
retry loop when it is set; only when it is unset does control flow back to
the top of the retry loop, which starts a fresh client process. -/
inductive OuterAction
  | stopped
  | restartClient
deriving DecidableEq, Repr

/-- The decision after an inner-loop break, given the stop event value at
that moment. -/
def outerAfterBreak (stopSetNow : Bool) : OuterAction :=
  if stopSetNow then .stopped else .restartClient

/-- C6 counterexample: with the run otherwise healthy (stop event unset,
neither limit hit) and the client process found dead, the monitor loop
calls _stop_collection — setting the cancellation signal — and the outer
loop then observes the signal and stops; the subscriber is not restarted,
contrary to the claim. -/
theorem subscriber_death_stops_collection :
    monitorStep ⟨false, false, false, false⟩ = .stopAndBreak ∧
    outerAfterBreak true = .stopped ∧
    outerAfterBreak true ≠ .restartClient := ⟨rfl, rfl, by decide⟩

/-- C6 amended: while the run is otherwise healthy, an unexpected
termination of the Feed Subscriber process makes the Lifecycle Controller
set the cancellation signal (via _stop_collection) and stop the run; it
does not restart the subscriber. -/
theorem subscriber_death_amended (o : MonitorObs)
    (h1 : o.stopSet = false) (h2 : o.durationHit = false)
    (h3 : o.postLimitHit = false) (h4 : o.clientAlive = false) :
    monitorStep o = .stopAndBreak ∧ outerAfterBreak true = .stopped := by
  cases o with
  | mk a b c d =>
      cases h1
      cases h2
      cases h3
      cases h4
      exact ⟨rfl, rfl⟩

theorem subscriber_death_amended_witness :
    (⟨false, false, false, false⟩ : MonitorObs).stopSet = false ∧
    monitorStep ⟨false, false, false, false⟩ = .stopAndBreak :=
  ⟨rfl, (subscriber_death_amended ⟨false, false, false, false⟩
    rfl rfl rfl rfl).1⟩

/-- BlueskyHistoricalSearch._download_new_images. The file argument is the
image_urls column of the processed-posts csv (none when the file does not
exist). When the file is absent the whole input set is returned unchanged
and nothing is downloaded; otherwise every comma-joined cell is flattened
and exactly the input urls not already present are downloaded
(first component) and returned (second component). -/
def downloadNewImages (image_urls : Finset String)
    (file : Option (List String)) : Finset String × Finset String :=
  match file with
  | none => (∅, image_urls)
  | some cells =>
      let existing := cells.flatMap fun c => pySplit "," c
      let new_urls := image_urls \ existing.toFinset
      (new_urls, new_urls)

/-- C9: with no persisted output file, _download_new_images returns its
entire input set and downloads nothing; with a file, it downloads and
returns exactly those input urls that do not appear in the flattened
comma-split image_urls column. -/
theorem download_new_images_spec (image_urls : Finset String)
    (cells : List String) (u : String) :
    downloadNewImages image_urls none = (∅, image_urls) ∧
    (downloadNewImages image_urls (some cells)).1 =
      (downloadNewImages image_urls (some cells)).2 ∧
    (u ∈ (downloadNewImages image_urls (some cells)).2 ↔
      u ∈ image_urls ∧ ¬∃ c ∈ cells, u ∈ pySplit "," c) := by
  refine ⟨rfl, rfl, ?_⟩
  simp only [downloadNewImages, Finset.mem_sdiff, List.mem_toFinset,
    List.mem_flatMap]

/-- The reply attribute of an API post: parent_uri is the uri of the parent
when the reply has a parent carrying a uri attribute. -/
structure ReplyRef where
  parent_uri : Option String
deriving DecidableEq, Repr

/-- A post object returned by the historical search API; each optional
field models a hasattr check in _extract_post_data (with an absent or None
attribute collapsed to none). -/
structure ApiPost where
  embed : Option EmbedObj
  reply : Option ReplyRef
  record_text : Option String
  uri : Option String
  author_handle : Option String
  cid : Option String
  indexed_at : Option String
  likeCount : Option Nat
  repostCount : Option Nat
deriving DecidableEq, Repr

/-- The image part of _extract_post_data: has_images is true exactly when
the truthy embed carries an images attribute, in which case _get_image_data
runs (and may raise on an empty images list). -/
def extractImagePart (embed : Option EmbedObj) :
    Except Unit (Bool × List String) :=
  match embed with
  | none => .ok (false, [])
  | some e =>
      match e.images with
      | none => .ok (false, [])
      | some _ =>
          match getImageData embed with
          | .error e2 => .error e2
          | .ok urls => .ok (true, urls)

/-- BlueskyHistoricalSearch._extract_post_data: builds the post_data
dictionary; a post authored by nowbreezing.ntw.app (a spammy wordcloud
account) yields the empty dictionary, modeled as none. The translate
argument models the external translation call. -/
def extractPostData (translate : String → String) (post : ApiPost) :
    Except Unit (Option PostData) :=
  match extractImagePart post.embed with
  | .error e2 => .error e2
  | .ok hi =>
      let reply_to : Option String :=
        match post.reply with
        | none => none
        | some r => r.parent_uri
      let original_text := post.record_text.getD ""
      let text := if original_text ≠ "" then translate original_text else ""
      let web_url : Option String :=
        match post.uri, post.author_handle with
        | some u, some hd =>
            some ("https://bsky.app/profile/" ++ hd ++ "/post/" ++
              (pySplit "/" u).getLastD "")
        | _, _ => none
      let author := post.author_handle.getD ""
      if author = "nowbreezing.ntw.app" then .ok none
      else .ok (some
        { cid := post.cid.getD "",
          text := original_text,
          translated_text := text,
          created_at := post.indexed_at.getD "",
          author := author,
          translated := if text ≠ original_text then "yes" else "no",
          uri := post.uri.getD "",
          has_images := hi.1,
          image_urls := if hi.1 then hi.2 else [],
          reply_to := reply_to,
          web_url := web_url,
          likes := post.likeCount.getD 0,
          reposts := post.repostCount.getD 0 })

/-- The mutable state of the result loop of search_posts. -/
structure LoopState where
  file : Option CsvFile
  posts_collected : Nat
  images_collected : Nat
  all_results : List PostData
deriving DecidableEq, Repr

/-- The body of the result loop of search_posts for one post: the
time-window check, the empty-record skip, the OnlyWithImages filter (with
the image accounting in its else branch), the ExcludeReplies filter, the
save, the result append and the outcome count. The boolean is true when
the body raised (the enclosing try then breaks the page loop). -/
def searchLoopBody (only_images include_replies : Bool)
    (translate : String → String) (inWindow : Bool) (post : ApiPost)
    (s : LoopState) : LoopState × Bool :=
  if !inWindow then (s, false)
  else
    match extractPostData translate post with
    | .error _ => (s, true)
    | .ok none => (s, false)
    | .ok (some pd) =>
        if only_images && !pd.has_images then (s, false)
        else
          let s1 := { s with images_collected := s.images_collected +
            (if pd.has_images then pd.image_urls.length else 0) }
          if !include_replies && pyTruthy pd.reply_to then (s1, false)
          else
            let r := savePostData pd s1.file
            let s2 := { s1 with
              file := some r.2,
              all_results := s1.all_results ++ [pd] }
            if r.1 then
              ({ s2 with posts_collected := s2.posts_collected + 1 },
                false)
            else (s2, false)

/-- C10: a post authored by nowbreezing.ntw.app extracts to the empty
record, and the result loop skips an empty record before any filter, save,
count or image accounting, so such a post is never persisted, never
counted, and contributes no image urls — for any filter settings and any
loop state. (The hypothesis rules out the independent failure of
_get_image_data on an embed carrying an empty images list, which would
raise before the author check.) -/
theorem spam_author_excluded (translate : String → String)
    (post : ApiPost) (s : LoopState) (oi ir inw : Bool)
    (h : post.author_handle = some "nowbreezing.ntw.app")
    (himg : ∀ e, post.embed = some e → ∀ l, e.images = some l → l ≠ []) :
    extractPostData translate post = .ok none ∧
    searchLoopBody oi ir translate inw post s = (s, false) := by
  have hextract : extractPostData translate post = .ok none := by
    have himage : ∃ hi, extractImagePart post.embed = .ok hi := by
      cases hpe : post.embed with
      | none => exact ⟨(false, []), rfl⟩
      | some e =>
          cases hpi : e.images with
          | none => exact ⟨(false, []), by simp [extractImagePart, hpi]⟩
          | some l =>
              cases l with
              | nil => exact absurd rfl (himg e hpe [] hpi)
              | cons i rest =>
                  refine ⟨(true, [i.fullsize]), ?_⟩
                  simp [extractImagePart, hpi, getImageData]
    obtain ⟨hi, hok⟩ := himage
    rw [extractPostData, hok]
    simp [h]
  refine ⟨hextract, ?_⟩
  cases inw with
  | false => rfl
  | true => simp [searchLoopBody, hextract]

/-- A concrete post by the excluded spam account. -/
def spamPost : ApiPost :=
  { embed := none, reply := none, record_text := some "hello",
    uri := some "at://did:plc:s/app.bsky.feed.post/9",
    author_handle := some "nowbreezing.ntw.app",
    cid := some "c9", indexed_at := some "2025-03-29T00:00:00Z",
    likeCount := some 0, repostCount := some 0 }

theorem spam_author_excluded_witness :
    spamPost.author_handle = some "nowbreezing.ntw.app" ∧
    extractPostData id spamPost = .ok none :=
  ⟨rfl, (spam_author_excluded id spamPost ⟨none, 0, 0, []⟩ true false
    true rfl (fun _ he => Option.noConfusion he)).1⟩

end MyanmarEQ
